import Mathlib

/-
  Verification development for the DHT implementation in DHT.go.

  The Go program is embedded shallowly:
  * `DHT` and `Peer` mirror the Go structs; Go's `*Peer` references are
    modelled as indices into an `Arena` (a list of peer objects), so that
    the same peer object can be shared by many buckets, as in the source.
  * The md5 digest (`crypto/md5`, an external collaborator per the spec)
    is an opaque parameter `hashValue : String → String`.
  * `setValue` and `getValue` recurse across peers without any bound in the
    source; the embedding adds an explicit fuel argument and returns
    `none` when the fuel is exhausted, so a run of the source that never
    terminates is the function being `none` for every fuel.
  * Both operations thread the arena (the mutable heap of peers) through
    every call and return it together with their result, so that framing
    facts ("nothing was written") are provable rather than built in.
-/

/-- Go struct `DHT { buckets []Bucket }`; each bucket (`Bucket.nodes []*Peer`)
is a list of arena indices standing for the `*Peer` pointers. -/
structure DHT where
  buckets : List (List Nat)
deriving DecidableEq

instance : Inhabited DHT := ⟨⟨[]⟩⟩

/-- Go struct `Peer { id string; buckets []Bucket; dht DHT }`.  The `buckets`
field of `Peer` is read only by the bootstrap harness in `main`, never by the
DHT methods, but it is kept for fidelity to the source layout. -/
structure Peer where
  id : String
  buckets : List (List Nat)
  dht : DHT
deriving DecidableEq

instance : Inhabited Peer := ⟨⟨"", [], ⟨[]⟩⟩⟩

/-- The heap of peer objects; a Go `*Peer` is an index into it. -/
abbrev Arena := List Peer

/-- Dereference a `*Peer`.  Valid configurations only use in-range indices;
an out-of-range index yields the default peer. -/
def getPeer (a : Arena) (i : Nat) : Peer := a.getD i default

/-- Value of one hex digit, as `math/big`'s scanner assigns it.  Characters
outside `[0-9a-fA-F]` make `big.Int.SetString` fail (the Go value is then
undefined); they are mapped to 0 here and never used by the theorems. -/
def hexDigitVal (c : Char) : Nat :=
  if '0' ≤ c ∧ c ≤ '9' then c.toNat - '0'.toNat
  else if 'a' ≤ c ∧ c ≤ 'f' then c.toNat - 'a'.toNat + 10
  else if 'A' ≤ c ∧ c ≤ 'F' then c.toNat - 'A'.toNat + 10
  else 0

/-- `new(big.Int).SetString(s, 16)` on a valid hex string: the arbitrary
precision value of `s` read in base 16. -/
def hexToNat (s : String) : Nat :=
  s.data.foldl (fun acc c => 16 * acc + hexDigitVal c) 0

/-- Go's `int(x.Int64())` on a non-negative `big.Int` on a 64-bit platform:
the low 64 bits reinterpreted as a two's complement signed integer. -/
def toInt64 (n : Nat) : Int :=
  let m : Nat := n % 2 ^ 64
  if m < 2 ^ 63 then (m : Int) else (m : Int) - 2 ^ 64

/-- `func (d *DHT) calculateDistance(id1, id2 string) int`: parse both ids as
hex big integers, XOR them, then narrow the result through `int64`. -/
def calculateDistance (id1 : String) (id2 : String) : Int :=
  toInt64 ((hexToNat id1) ^^^ (hexToNat id2))

/-- `func (d *DHT) containsKey(key string) bool`: scans every bucket for a
peer whose `id` equals the key. -/
def containsKey (a : Arena) (d : DHT) (key : String) : Bool :=
  d.buckets.any (fun bucket => bucket.any (fun i => (getPeer a i).id == key))

/-- `func (d *DHT) findOwnNode() *Peer`: `nil` when the bucket list is empty
or the first bucket is empty, else the first node of the first bucket. -/
def findOwnNode (d : DHT) : Option Nat :=
  match d.buckets with
  | [] => none
  | bucket0 :: _ =>
    match bucket0 with
    | [] => none
    | n0 :: _ => some n0

/-- The comparison closure passed to `sortPeerSlice` in `findNearestNodes`:
order by distance to `key`, ties broken by `id` (Go string order, which on
the ASCII ids used here agrees with Lean's `String` order). -/
def nodeLt (a : Arena) (key : String) (p1 : Nat) (p2 : Nat) : Bool :=
  let distanceA := calculateDistance (getPeer a p1).id key
  let distanceB := calculateDistance (getPeer a p2).id key
  if distanceA ≠ distanceB then decide (distanceA < distanceB)
  else decide ((getPeer a p1).id < (getPeer a p2).id)

/-- Insert `x` into a sorted list, before the first element `y` with
`le x y`; the building block of the stable sort below. -/
def orderedInsert (le : Nat → Nat → Bool) (x : Nat) : List Nat → List Nat
  | [] => [x]
  | y :: l => if le x y then x :: y :: l else y :: orderedInsert le x l

/-- `func (d *DHT) sortPeerSlice(...)`, i.e. `sort.SliceStable` with the
given `less` closure (passed here as `le x y := !less y x`).  A stable
insertion sort returns the same list as any stable sort for a strict weak
order comparator, and it computes by structural recursion, so concrete runs
reduce inside proofs. -/
def sortPeerSlice (le : Nat → Nat → Bool) : List Nat → List Nat
  | [] => []
  | x :: l => orderedInsert le x (sortPeerSlice le l)

/-- `func (d *DHT) findNearestNodes(key string) []*Peer`: gather every bucket
entry, sort stably by `nodeLt`, keep those at distance `<=` the own node's
distance to the key, and take the first `min(2, len)`. -/
def findNearestNodes (a : Arena) (d : DHT) (key : String) : List Nat :=
  match findOwnNode d with
  | none => []
  | some own =>
    let distanceToKey := calculateDistance (getPeer a own).id key
    let allNodes := d.buckets.flatten
    let sortedNodes := sortPeerSlice (fun i j => !nodeLt a key j i) allNodes
    let nearestNodes := sortedNodes.filter
      (fun i => decide (calculateDistance (getPeer a i).id key ≤ distanceToKey))
    nearestNodes.take (min 2 nearestNodes.length)

/-- The `for _, node := range nearestNodes` loop of `getValue`: call `g`
(the one-level-deeper `getValue`) on each node's dht, return the first
result different from `""`, else `""`.  A `none` from a callee (divergence
of the source) makes the whole loop `none`. -/
def getLoopAux (g : Arena → DHT → String → Option (String × Arena)) :
    Arena → List Nat → String → Option (String × Arena)
  | a, [], _ => some ("", a)
  | a, i :: rest, key =>
    match g a (getPeer a i).dht key with
    | none => none
    | some (v, a1) => if v ≠ "" then some (v, a1) else getLoopAux g a1 rest key

/-- `func (d *DHT) getValue(key string) string`, with fuel for the unbounded
recursion of the source; the arena is threaded and returned. -/
def getValue : Nat → Arena → DHT → String → Option (String × Arena)
  | 0, _, _, _ => none
  | fuel + 1, a, d, key =>
    match findOwnNode d with
    | some own =>
      if containsKey a (getPeer a own).dht key then
        getValue fuel a (getPeer a own).dht key
      else
        getLoopAux (getValue fuel) a (findNearestNodes a d key) key
    | none => getLoopAux (getValue fuel) a (findNearestNodes a d key) key

/-- The `for _, node := range nearestNodes` loop of `setValue`: call `s` on
each node's dht, discarding the boolean result, then fall through to the
source's final `return true`. -/
def setLoopAux (s : Arena → DHT → String → String → Option (Bool × Arena)) :
    Arena → List Nat → String → String → Option (Bool × Arena)
  | a, [], _, _ => some (true, a)
  | a, i :: rest, key, value =>
    match s a (getPeer a i).dht key value with
    | none => none
    | some (_, a1) => setLoopAux s a1 rest key value

/-- `func (d *DHT) setValue(key, value string) bool`, with fuel; `hashValue`
is the md5 hex digest (`func (d *DHT) hashValue`), an opaque external
collaborator. -/
def setValue (hashValue : String → String) :
    Nat → Arena → DHT → String → String → Option (Bool × Arena)
  | 0, _, _, _, _ => none
  | fuel + 1, a, d, key, value =>
    if key ≠ hashValue key then some (false, a)
    else
      match findOwnNode d with
      | some own =>
        if containsKey a (getPeer a own).dht key then some (true, a)
        else
          match setValue hashValue fuel a (getPeer a own).dht key value with
          | none => none
          | some (_, a1) =>
            setLoopAux (setValue hashValue fuel) a1 (findNearestNodes a1 d key) key value
      | none => setLoopAux (setValue hashValue fuel) a (findNearestNodes a d key) key value

/-- Two-cycle fixture, peer A: its dht knows itself (index 0) first, then B. -/
def peerA : Peer := ⟨"3", [], ⟨[[0, 1]]⟩⟩

/-- Two-cycle fixture, peer B: its dht knows itself (index 1) first, then A. -/
def peerB : Peer := ⟨"5", [], ⟨[[1, 0]]⟩⟩

/-- The 2-cycle arena: A's table contains B and B's table contains A. -/
def cycArena : Arena := [peerA, peerB]

/-- Concrete-scenario fixture: querying peer A, id 0x0F, its table holding
itself (the designated self at the conventional first position), B and C. -/
def peerA7 : Peer := ⟨"f", [], ⟨[[0, 1, 2]]⟩⟩

/-- Concrete-scenario fixture: peer B, id 0x05. -/
def peerB7 : Peer := ⟨"5", [], ⟨[]⟩⟩

/-- Concrete-scenario fixture: peer C, id 0x0A. -/
def peerC7 : Peer := ⟨"a", [], ⟨[]⟩⟩

/-- Arena for the concrete scenario of the spec. -/
def arena7 : Arena := [peerA7, peerB7, peerC7]

/-- A routing table whose first bucket is empty while the second holds a
peer; exercises `findOwnNode`'s first-bucket-only check. -/
def dhtLater : DHT := ⟨[[], [0]]⟩

/-- One peer with an empty own dht; a table pointing at it terminates. -/
def peerE : Peer := ⟨"a", [], ⟨[]⟩⟩

/-- Arena holding just `peerE`. -/
def arenaE : Arena := [peerE]

/-- Helper for the 2-cycle: started at B, `getValue` immediately re-enters B
(the single nearest candidate) and never returns, for any fuel. -/
theorem getValue_cycle_B : ∀ fuel, getValue fuel cycArena peerB.dht "7" = none := by
  intro fuel
  induction fuel with
  | zero => rfl
  | succ n ih =>
    have h1 : getValue (n + 1) cycArena peerB.dht "7"
        = getLoopAux (getValue n) cycArena [1] "7" := rfl
    have h2 : getLoopAux (getValue n) cycArena [1] "7"
        = match getValue n cycArena peerB.dht "7" with
          | none => none
          | some (v, a1) => if v ≠ "" then some (v, a1) else getLoopAux (getValue n) a1 [] "7" := rfl
    rw [h1, h2, ih]

/-- Claim C1 (refuted; the code diverges): on the 2-cycle overlay where A's
table contains B and B's table contains A, with a key held by neither peer,
`getValue` started at A does not terminate: the source has no visited set, so
for every recursion budget the embedded run exhausts it (`none`) instead of
ever returning the not-found answer. -/
theorem getValue_cycle_diverges : ∀ fuel, getValue fuel cycArena peerA.dht "7" = none := by
  intro fuel
  cases fuel with
  | zero => rfl
  | succ n =>
    have h1 : getValue (n + 1) cycArena peerA.dht "7"
        = getLoopAux (getValue n) cycArena [1, 0] "7" := rfl
    have h2 : getLoopAux (getValue n) cycArena [1, 0] "7"
        = match getValue n cycArena peerB.dht "7" with
          | none => none
          | some (v, a1) => if v ≠ "" then some (v, a1) else getLoopAux (getValue n) a1 [0] "7" := rfl
    rw [h1, h2, getValue_cycle_B n]

/-- The store fan-out loop leaves the arena unchanged if every callee does. -/
theorem setLoopAux_arena_eq
    (s : Arena → DHT → String → String → Option (Bool × Arena))
    (hs : ∀ a d k v p, s a d k v = some p → p.2 = a) :
    ∀ (l : List Nat) (a : Arena) (k v : String) (p : Bool × Arena),
      setLoopAux s a l k v = some p → p.2 = a := by
  intro l
  induction l with
  | nil => intro a k v p h; simp only [setLoopAux] at h; cases h; rfl
  | cons i rest ih =>
    intro a k v p h
    simp only [setLoopAux] at h
    cases hc : s a (getPeer a i).dht k v with
    | none => simp only [hc] at h; cases h
    | some q =>
      obtain ⟨b, a1⟩ := q
      simp only [hc] at h
      have ha1 : a1 = a := hs _ _ _ _ _ hc
      subst ha1
      exact ih a1 k v p h

/-- `setValue` never writes: any completed run returns the arena it was
given. -/
theorem setValue_arena_eq (hash : String → String) :
    ∀ (fuel : Nat) (a : Arena) (d : DHT) (k v : String) (p : Bool × Arena),
      setValue hash fuel a d k v = some p → p.2 = a := by
  intro fuel
  induction fuel with
  | zero => intro a d k v p h; cases h
  | succ n ih =>
    intro a d k v p h
    simp only [setValue] at h
    by_cases hk : k ≠ hash k
    · rw [if_pos hk] at h; cases h; rfl
    · rw [if_neg hk] at h
      cases ho : findOwnNode d with
      | none =>
        simp only [ho] at h
        exact setLoopAux_arena_eq _ ih _ _ _ _ _ h
      | some own =>
        simp only [ho] at h
        by_cases hc : containsKey a (getPeer a own).dht k = true
        · rw [if_pos hc] at h; cases h; rfl
        · rw [if_neg hc] at h
          cases hi : setValue hash n a (getPeer a own).dht k v with
          | none => simp only [hi] at h; cases h
          | some q =>
            obtain ⟨b, a1⟩ := q
            simp only [hi] at h
            have ha1 : a1 = a := ih _ _ _ _ _ hi
            subst ha1
            exact setLoopAux_arena_eq _ ih _ _ _ _ _ h

/-- The retrieve fan-out loop leaves the arena unchanged if every callee
does. -/
theorem getLoopAux_arena_eq
    (g : Arena → DHT → String → Option (String × Arena))
    (hg : ∀ a d k p, g a d k = some p → p.2 = a) :
    ∀ (l : List Nat) (a : Arena) (k : String) (p : String × Arena),
      getLoopAux g a l k = some p → p.2 = a := by
  intro l
  induction l with
  | nil => intro a k p h; simp only [getLoopAux] at h; cases h; rfl
  | cons i rest ih =>
    intro a k p h
    simp only [getLoopAux] at h
    cases hc : g a (getPeer a i).dht k with
    | none => simp only [hc] at h; cases h
    | some q =>
      obtain ⟨v, a1⟩ := q
      have ha1 : a1 = a := hg _ _ _ _ hc
      subst ha1
      simp only [hc] at h
      by_cases hv : v ≠ ""
      · rw [if_pos hv] at h; cases h; rfl
      · rw [if_neg hv] at h; exact ih a1 k p h

/-- `getValue` never writes: any completed run returns the arena it was
given. -/
theorem getValue_arena_eq :
    ∀ (fuel : Nat) (a : Arena) (d : DHT) (k : String) (p : String × Arena),
      getValue fuel a d k = some p → p.2 = a := by
  intro fuel
  induction fuel with
  | zero => intro a d k p h; cases h
  | succ n ih =>
    intro a d k p h
    simp only [getValue] at h
    cases ho : findOwnNode d with
    | none =>
      simp only [ho] at h
      exact getLoopAux_arena_eq _ ih _ _ _ _ h
    | some own =>
      simp only [ho] at h
      by_cases hc : containsKey a (getPeer a own).dht k = true
      · rw [if_pos hc] at h; exact ih _ _ _ _ h
      · rw [if_neg hc] at h
        exact getLoopAux_arena_eq _ ih _ _ _ _ h

/-- The store fan-out loop can only complete with the boolean `true` (the
source's final `return true`). -/
theorem setLoopAux_fst_true
    (s : Arena → DHT → String → String → Option (Bool × Arena)) :
    ∀ (l : List Nat) (a : Arena) (k v : String) (p : Bool × Arena),
      setLoopAux s a l k v = some p → p.1 = true := by
  intro l
  induction l with
  | nil => intro a k v p h; simp only [setLoopAux] at h; cases h; rfl
  | cons i rest ih =>
    intro a k v p h
    simp only [setLoopAux] at h
    cases hc : s a (getPeer a i).dht k v with
    | none => simp only [hc] at h; cases h
    | some q =>
      obtain ⟨b, a1⟩ := q
      simp only [hc] at h
      exact ih a1 k v p h

/-- When the key passes the integrity check, a completed `setValue` run can
only return `true`. -/
theorem setValue_fst_true (hash : String → String) (fuel : Nat) (a : Arena) (d : DHT)
    (k v : String) (p : Bool × Arena) (hk : k = hash k)
    (h : setValue hash fuel a d k v = some p) : p.1 = true := by
  cases fuel with
  | zero => cases h
  | succ n =>
    simp only [setValue] at h
    have hk2 : ¬k ≠ hash k := by simpa using hk
    rw [if_neg hk2] at h
    cases ho : findOwnNode d with
    | none =>
      simp only [ho] at h
      exact setLoopAux_fst_true _ _ _ _ _ _ h
    | some own =>
      simp only [ho] at h
      by_cases hc : containsKey a (getPeer a own).dht k = true
      · rw [if_pos hc] at h; cases h; rfl
      · rw [if_neg hc] at h
        cases hi : setValue hash n a (getPeer a own).dht k v with
        | none => simp only [hi] at h; cases h
        | some q =>
          obtain ⟨b, a1⟩ := q
          simp only [hi] at h
          exact setLoopAux_fst_true _ _ _ _ _ _ h

/-- Claim C4: `setValue` returns `false` (the key-integrity rejection) if and
only if the key differs from its own hash: a completed run returns `false`
exactly when `key != hashValue key`, and whenever `key != hashValue key` the
run completes immediately with `false` and an unchanged arena. -/
theorem setValue_false_iff_key_integrity (hash : String → String) (fuel : Nat)
    (a : Arena) (d : DHT) (key value : String) :
    (∀ p, setValue hash fuel a d key value = some p → (p.1 = false ↔ key ≠ hash key)) ∧
    (key ≠ hash key → setValue hash (fuel + 1) a d key value = some (false, a)) := by
  constructor
  · intro p hp
    constructor
    · intro hfalse
      intro hk
      have := setValue_fst_true hash fuel a d key value p hk hp
      rw [this] at hfalse
      cases hfalse
    · intro hk
      cases fuel with
      | zero => cases hp
      | succ n =>
        simp only [setValue] at hp
        rw [if_pos hk] at hp
        cases hp
        rfl
  · intro hk
    simp only [setValue]
    rw [if_pos hk]

/-- Witness for C4 at a concrete digest function and key. -/
theorem setValue_false_iff_key_integrity_witness :
    ("k" ≠ (fun _ => "zz") "k") ∧
      setValue (fun _ => "zz") 1 [] ⟨[]⟩ "k" "v" = some (false, []) :=
  ⟨by decide, (setValue_false_iff_key_integrity (fun _ => "zz") 0 [] ⟨[]⟩ "k" "v").2 (by decide)⟩

/-- Claim C6: `findNearestNodes` returns at most 2 peers, and each returned
peer is at distance to the key no greater than the own node's distance. -/
theorem findNearestNodes_fanout_cap (a : Arena) (d : DHT) (key : String) :
    (findNearestNodes a d key).length ≤ 2 ∧
      ∀ own, findOwnNode d = some own →
        ∀ i ∈ findNearestNodes a d key,
          calculateDistance (getPeer a i).id key ≤ calculateDistance (getPeer a own).id key := by
  cases ho : findOwnNode d with
  | none =>
    constructor
    · simp [findNearestNodes, ho]
    · intro own h; cases h
  | some own0 =>
    constructor
    · simp only [findNearestNodes, ho]
      exact le_trans (List.length_take_le _ _) (min_le_left _ _)
    · intro own h
      injection h with h
      subst h
      intro i hi
      simp only [findNearestNodes, ho] at hi
      have hi2 := List.mem_of_mem_take hi
      have hi3 := (List.mem_filter.mp hi2).2
      exact of_decide_eq_true hi3

/-- Witness for C6 on the concrete three-peer arena. -/
theorem findNearestNodes_fanout_cap_witness :
    (findNearestNodes arena7 peerA7.dht "0").length ≤ 2 ∧
      calculateDistance (getPeer arena7 1).id "0" ≤ calculateDistance (getPeer arena7 0).id "0" :=
  ⟨(findNearestNodes_fanout_cap arena7 peerA7.dht "0").1,
   (findNearestNodes_fanout_cap arena7 peerA7.dht "0").2 0 rfl 1 (by decide)⟩

/-- Claim C8 (amended): `findOwnNode` inspects only the FIRST bucket: it is
`none` exactly when the bucket list is empty or its first bucket is empty
(even if a later bucket holds peers), otherwise it is the first entry of the
first bucket; and `findNearestNodes` is empty whenever `findOwnNode` is
`none`. -/
theorem findOwnNode_first_bucket_only (a : Arena) (d : DHT) (key : String) :
    (findOwnNode d = none ↔ d.buckets = [] ∨ ∃ rest, d.buckets = [] :: rest) ∧
    (∀ i, findOwnNode d = some i → ∃ b rest, d.buckets = (i :: b) :: rest) ∧
    (findOwnNode d = none → findNearestNodes a d key = []) := by
  obtain ⟨bs⟩ := d
  match bs with
  | [] =>
    refine ⟨by simp [findOwnNode], ?_, ?_⟩
    · intro i h; cases h
    · intro h; rfl
  | [] :: rest =>
    refine ⟨by simp [findOwnNode], ?_, ?_⟩
    · intro i h; cases h
    · intro h; rfl
  | (n0 :: b) :: rest =>
    refine ⟨by simp [findOwnNode], ?_, ?_⟩
    · intro i h
      simp only [findOwnNode] at h
      injection h with h
      subst h
      exact ⟨b, rest, rfl⟩
    · intro h; cases h

/-- Witness for C8 on the table whose first bucket is empty. -/
theorem findOwnNode_first_bucket_only_witness :
    findOwnNode dhtLater = none ∧ findNearestNodes [] dhtLater "0" = [] :=
  ⟨rfl, (findOwnNode_first_bucket_only [] dhtLater "0").2.2 rfl⟩

/-- Counterexample to C8 as stated: a table whose first bucket is empty and
whose second bucket holds a peer.  `findOwnNode` returns `none` although the
table holds a peer, so both parts fail: it is none although the
table holds a peer, and the first entry of the first non-empty bucket is not
returned. -/
theorem findOwnNode_ignores_second_bucket :
    findOwnNode dhtLater = none ∧ dhtLater.buckets.flatten = [0] := by decide

/-- Claim C10: neither `setValue` nor `getValue` mutates any peer state: a
completed run of either operation returns the arena (the whole heap of peers,
buckets and fields) it started from, so in particular `setValue` persists no
key/value record anywhere. -/
theorem setValue_getValue_no_mutation (hash : String → String) (fuel : Nat) (a : Arena)
    (d : DHT) (key value : String) (p : Bool × Arena) (q : String × Arena) :
    (setValue hash fuel a d key value = some p → p.2 = a) ∧
    (getValue fuel a d key = some q → q.2 = a) :=
  ⟨setValue_arena_eq hash fuel a d key value p, getValue_arena_eq fuel a d key q⟩

/-- Witness for C10 on a concrete empty table. -/
theorem setValue_getValue_no_mutation_witness :
    setValue (fun s => s) 1 [] ⟨[]⟩ "k" "v" = some (true, []) ∧
      ((true, ([] : Arena)).2 = ([] : Arena)) ∧
      getValue 1 [] ⟨[]⟩ "k" = some ("", []) ∧
      ((("" : String), ([] : Arena)).2 = ([] : Arena)) :=
  ⟨rfl,
   (setValue_getValue_no_mutation (fun s => s) 1 [] ⟨[]⟩ "k" "v" (true, []) ("", [])).1 rfl,
   rfl,
   (setValue_getValue_no_mutation (fun s => s) 1 [] ⟨[]⟩ "k" "v" (true, []) ("", [])).2 rfl⟩

/-- Claim C2 (refuted): a store accepted with `true` at a peer is not
retrievable: `setValue` persists nothing, and the immediate `getValue` for
the same key from the same peer returns the empty string, not the stored
value v.  (The empty table is exactly the shape `main` builds: every
peer's `dht` field has no buckets.) -/
theorem store_accepted_but_retrieve_empty :
    setValue (fun s => s) 2 [] ⟨[]⟩ "ab" "v" = some (true, []) ∧
      getValue 2 [] ⟨[]⟩ "ab" = some ("", []) ∧ ("" : String) ≠ "v" := by
  refine ⟨rfl, rfl, ?_⟩
  decide

/-- Claim C3 (refuted in its record part): storing the same accepted pair
twice does return `true` both times, but the state after both calls is the
initial arena unchanged: zero records exist rather than exactly one (the
source has no record storage at all). -/
theorem store_twice_leaves_no_record :
    setValue (fun _ => "5") 5 arenaE ⟨[[0]]⟩ "5" "v" = some (true, arenaE) ∧
      (setValue (fun _ => "5") 5 arenaE ⟨[[0]]⟩ "5" "v").bind
        (fun p => setValue (fun _ => "5") 5 p.2 ⟨[[0]]⟩ "5" "v") = some (true, arenaE) ∧
      arenaE = [⟨"a", [], ⟨[]⟩⟩] := by
  refine ⟨rfl, by decide, rfl⟩

/-- Claim C5 (refuted): `calculateDistance` narrows the full-width XOR
through `int64`.  For ids `0x10000000000000000` and `0x0` the true XOR
distance is `2^64` but the code returns `0`, which even inverts the ordering
against the id `0x1` at true distance 1. -/
theorem calculateDistance_truncates_to_int64 :
    calculateDistance "10000000000000000" "0" = 0 ∧
      ((hexToNat "10000000000000000") ^^^ (hexToNat "0")) = 2 ^ 64 ∧
      calculateDistance "10000000000000000" "0" < calculateDistance "1" "0" := by
  decide

/-- Claim C7: in the concrete scenario (self A id 0x0F at the conventional
first table position, B id 0x05, C id 0x0A, target 0x00), `findNearestNodes`
returns exactly [B, C] in that order. -/
theorem findNearestNodes_concrete_scenario :
    findNearestNodes arena7 peerA7.dht "0" = [1, 2] ∧
      (findNearestNodes arena7 peerA7.dht "0").map (fun i => (getPeer arena7 i).id) = ["5", "a"] := by
  decide

/-- Claim C9 (refuted): the no-answer outcome of `getValue` is the empty
string itself: a retrieve that finds nothing returns the empty
string, the very value a stored empty record would have, so the two are not
distinguishable (and the fan-out loop likewise treats the empty string as
no-answer). -/
theorem getValue_notfound_is_empty_string :
    getValue 1 [] ⟨[]⟩ "ab" = some ("", []) := rfl
